import Mathlib

/-!
Shallow embedding of electron-lazy-remote: the wire Meta Descriptor format,
the client-side LazyObject command builder (src/lib/renderer/lazy-object.js)
and the server-side RPC interpreter (src/lib/browser/rpc-server.js).

JavaScript values are modelled first-order: primitives, buffers, dates and
errors are immediate; arrays, plain objects, functions and decoded remote
shells live on an explicit heap, so that reference identity and cyclic
object graphs are representable.  Numbers are modelled as `Int` (the code
under study performs no arithmetic on them).  Promises are not modelled: no
claim concerns them, and the promise branches of the source are outside the
model's value space.
-/

/-- JavaScript runtime values.  Primitives, buffers, dates and errors are
immediate (their identity is never consulted by the code under study);
`ref` points into a heap of mutable objects.  `arr` is a structural array
as produced by the client-side result materializer (identity-free).
An error value carries the fields the source reads (`message`, `stack`,
`name`, `code`, `errno`, `cause`) plus any extra own enumerable
properties. -/
inductive Val where
  | undef
  | null
  | bool (b : Bool)
  | num (n : Int)
  | str (s : String)
  | buf (bytes : List Nat)
  | date (ms : Int)
  | err (ename : String) (message : String) (stack : String)
      (code : Option String) (errno : Option Int)
      (cause : Option Val) (extraProps : List (String × Val))
  | ref (a : Nat)
  | arr (elems : List Val)

/-- Member Descriptor: `{name, enumerable, writable, type}` where the type is
"method" or "get" (`getObjectMembers` in rpc-server.js). -/
structure MMember where
  mname : String
  enumerable : Bool
  writable : Bool
  mtype : String

/-- Prototype-chain descriptor: `{members, proto}`
(`getObjectPrototype` in rpc-server.js). -/
inductive ProtoDesc where
  | node (members : List MMember) (proto : Option ProtoDesc)

/-- Meta Descriptor: the tagged wire format.  Server→client arrays carry a
`members` field, client→server argument arrays carry a `value` field, so the
two are distinct constructors (`arr` vs `argArr`); likewise `obj` (server
object meta, member descriptors only) vs `objArg` (client object argument,
meta-encoded member values).  `value` metas carry the raw value
(rpc-server.js line 115 stores `value` unencoded; the error meta members
are likewise raw name/value pairs, from `plainObjectToMeta`). -/
inductive Meta where
  | value (v : Val)
  | arr (members : List Meta)
  | argArr (elems : List Meta)
  | buffer (payload : List Nat)
  | date (ms : Int)
  | obj (oname : String) (id : Nat) (members : List MMember) (proto : Option ProtoDesc)
  | func (fname : String) (id : Nat) (members : List MMember) (proto : Option ProtoDesc)
  | error (members : List (String × Val))
  | exception (message : Val) (stack : Val) (cause : Meta)
  | remoteObject (id : Nat)
  | fnWithReturn (value : Meta)
  | objArg (oname : String) (members : List (String × Meta))

/-- Commands of a Command Chain.  The wire `type` field is an open string;
`unknown` stands for any string that is not one of the recognized kinds
(the rpc-server switch has no default case). -/
inductive Command where
  | member_get (name : String)
  | member_set (name : String) (value : List Meta)
  | member_call (name : String) (args : List Meta)
  | member_constructor (name : String) (args : List Meta)
  | remote_object_get (id : Nat) (name : String)
  | remote_object_set (id : Nat) (name : String) (value : List Meta)
  | remote_object_call (id : Nat) (name : String) (args : List Meta)
  | remote_object_constructor (id : Nat) (name : String) (args : List Meta)
  | function_call (id : Option Nat) (args : List Meta)
  | constructor_call (id : Option Nat) (args : List Meta)
  | get_builtin (module : String)
  | get_global (name : String)
  | get_current_window
  | get_current_web_contents
  | require (module : String)
  | unknown (ty : String)

/-- First-order behaviour of a live server-side function: calling it either
returns a fixed value or throws a fixed value.  Behaviours ignore their
receiver, which is why `Function.prototype.bind` is modelled as the
identity on the function below. -/
inductive FnBehavior where
  | ret (v : Val)
  | throwE (e : Val)

/-- Heap objects.  `obj` is a plain object (the `simple` flag models the
hidden v8 `simple` marker consulted by the optimize path); `fn` is a live
function (`retMarker` models the hidden `returnValue` marker consulted by
the client argument encoder); `shell` is a client-side decoded remote
object (its `atomId` hidden value holds the server handle id); `lazyFn` is
a client-side LazyObject proxy (a `new Function()` wrapped in a Proxy,
with no hidden marker). -/
inductive Obj where
  | arr (elems : List Val)
  | obj (ctorName : String) (simple : Bool) (props : List (String × Val))
  | fn (fname : String) (retMarker : Option Val) (beh : FnBehavior)
  | shell (atomId : Nat) (ctorName : String) (members : List MMember) (proto : Option ProtoDesc)
  | lazyFn (commands : List Command)

/-- A process heap: finite map from addresses to objects. -/
abbrev Heap := List (Nat × Obj)

/-- Modelled from the spec: the Handle Registry (`objects-registry.js`, an
external collaborator not under src/).  `allocate(session, object) -> id`
is identity-preserving per session (encoding the same object twice yields
the same id) and `resolve(session, id) -> object | not-found`; handle ids
start at 1.  A single session is modelled, so entries map a handle id to a
heap address. -/
structure Registry where
  entries : List (Nat × Nat)
  nextId : Nat

/-- Modelled from the spec: initial registry with no issued handles. -/
def emptyReg : Registry := ⟨[], 1⟩

/-- Modelled from the spec: `HandleRegistry.resolve` — `objectsRegistry.get`
returns the live object for a handle id, or undefined (here `none`) for an
unknown or retired id. -/
def registryGet (reg : Registry) (id : Nat) : Option Nat :=
  reg.entries.lookup id

/-- Modelled from the spec: `HandleRegistry.allocate` — `objectsRegistry.add`
returns the existing id when the object is already registered in this
session, otherwise issues the next fresh id. -/
def registryAdd (reg : Registry) (a : Nat) : Nat × Registry :=
  match reg.entries.find? (fun p => p.2 == a) with
  | some p => (p.1, reg)
  | none => (reg.nextId, ⟨reg.entries ++ [(reg.nextId, a)], reg.nextId + 1⟩)

/-- Modelled from the spec: host collaborators consumed by the interpreter
(`electron[module]`, `global[name]`, `getOwnerBrowserWindow`, the sender
WebContents, `process.mainModule.require`), plus the process-global object
passed as the receiver of bare function calls. -/
structure Env where
  builtins : String → Val
  globals : String → Val
  currentWindow : Val
  currentWebContents : Val
  modules : String → Val
  globalObj : Val

/-- Modelled from the spec: `buffer-utils.bufferToMeta` (not under src/) —
the byte-for-byte buffer payload encoding. -/
def bufferToMeta (b : List Nat) : List Nat := b

/-- Modelled from the spec: `buffer-utils.metaToBuffer` (not under src/) —
exact inverse of `bufferToMeta`. -/
def metaToBuffer (b : List Nat) : List Nat := b

/-- Stack text captured by the V8 runtime for a newly constructed error:
it begins with the error's name and message; the frame lines are
environment-dependent and abstracted away. -/
def jsStackText (ename message : String) : String :=
  ename ++ ": " ++ message

/-- Reading `.message` off a caught value: the message string of an Error,
undefined (interpolated as "undefined") otherwise. -/
def jsMessageOf : Val → String
  | .err _ m _ _ _ _ _ => m
  | _ => "undefined"

/-- String interpolation of a value in a template literal, for the subset
of values that reach one in the modelled code. -/
def jsToString : Val → String
  | .undef => "undefined"
  | .null => "null"
  | .bool b => if b then "true" else "false"
  | .num n => toString n
  | .str s => s
  | _ => "[object Object]"

/-- A fresh `new TypeError(message)`. -/
def typeErrorVal (message : String) : Val :=
  .err "TypeError" message (jsStackText "TypeError" message) none none none []

/-- The `throwRPCError` helper of rpc-server.js: a fresh Error carrying
`code = EBADRPC` and `errno = -72` as own properties. -/
def rpcErrorVal (message : String) : Val :=
  .err "Error" message (jsStackText "Error" message) (some "EBADRPC") (some (-72)) none []

theorem rpcErrorVal_sanity :
    rpcErrorVal "m" = .err "Error" "m" "Error: m" (some "EBADRPC") (some (-72)) none [] := by
  rfl

/-- The internal properties of Function (rpc-server.js line 12). -/
def FUNCTION_PROPERTIES : List String :=
  ["length", "name", "arguments", "caller", "prototype"]

/-- Whether a value is a live callable (`typeof value === 'function'`). -/
def isFnRef (h : Heap) : Val → Bool
  | .ref a =>
      match h.lookup a with
      | some (.fn _ _ _) => true
      | some (.lazyFn _) => true
      | _ => false
  | _ => false

/-- `getObjectMembers` of rpc-server.js.  Own properties are modelled as
enumerable, writable data properties (accessors are not modelled), so a
non-callable member gets `{enumerable: true, writable: true, type: "get"}`
and a callable one `{enumerable: true, writable: false, type: "method"}`;
for functions the intrinsic length/name/arguments/caller/prototype slots
are filtered out first. -/
def getObjectMembers (h : Heap) (isFn : Bool) (props : List (String × Val)) : List MMember :=
  let names := if isFn then props.filter (fun p => !(FUNCTION_PROPERTIES.contains p.1)) else props
  names.map (fun p =>
    if isFnRef h p.2 then ⟨p.1, true, false, "method"⟩ else ⟨p.1, true, true, "get"⟩)

/-- `getObjectPrototype` of rpc-server.js.  Modelled objects are direct
instances whose prototype is Object.prototype (the prototype chain itself
is not part of the modelled value space), so the descriptor is null. -/
def getObjectPrototype (_h : Heap) (_a : Nat) : Option ProtoDesc := none

/-- `plainObjectToMeta` applied to an Error value: the own properties of a
standard V8 error are `stack` and `message`, plus `code`, `errno` and
`cause` when assigned, plus any extra assigned properties.  Values are
raw name/value pairs, not meta-encoded (rpc-server.js lines 121-128). -/
def errorOwnProps (message stack : String) (code : Option String)
    (errno : Option Int) (cause : Option Val) (extra : List (String × Val)) :
    List (String × Val) :=
  [("stack", .str stack), ("message", .str message)]
    ++ (match code with | some c => [("code", Val.str c)] | none => [])
    ++ (match errno with | some n => [("errno", Val.num n)] | none => [])
    ++ (match cause with | some v => [("cause", v)] | none => [])
    ++ extra

mutual

/-- `valueToMeta` of rpc-server.js, with a recursion-depth fuel (the source
recursion is unbounded; a `none` result for every fuel means the source
diverges).  Dispatch follows the source order: null, buffer, array, Error,
Date, the arguments-object branch (which coincides with the array branch),
the optimizeSimpleObject branch, then object/function handle allocation,
and finally the pass-by-value default which stores the raw value.  The
promise branch is outside the modelled value space.  A client-side `shell`
or `lazyFn` never reaches the server encoder; they are encoded from their
stored descriptors for totality. -/
def valueToMetaF (fuel : Nat) (h : Heap) (reg : Registry) (v : Val) (opt : Bool) :
    Option (Meta × Registry) :=
  match fuel with
  | 0 => none
  | f + 1 =>
    match v with
    | .null => some (.value .null, reg)
    | .buf bs => some (.buffer (bufferToMeta bs), reg)
    | .err n m s c e cs ex =>
        some (.error (errorOwnProps m s c e cs ex ++ [("name", .str n)]), reg)
    | .date ms => some (.date ms, reg)
    | .arr elems =>
        match encodeListF f h opt reg elems with
        | some (ms, reg') => some (.arr ms, reg')
        | none => none
    | .ref a =>
        match h.lookup a with
        | some (.arr elems) =>
            match encodeListF f h opt reg elems with
            | some (ms, reg') => some (.arr ms, reg')
            | none => none
        | some (.obj cname simple props) =>
            if opt && simple then some (.value (.ref a), reg)
            else
              let p := registryAdd reg a
              some (.obj cname p.1 (getObjectMembers h false props) (getObjectPrototype h a), p.2)
        | some (.shell _ cname members proto) =>
            let p := registryAdd reg a
            some (.obj cname p.1 members proto, p.2)
        | some (.fn _ _ _) =>
            let p := registryAdd reg a
            some (.func "Function" p.1 (getObjectMembers h true []) none, p.2)
        | some (.lazyFn _) =>
            let p := registryAdd reg a
            some (.func "Function" p.1 (getObjectMembers h true []) none, p.2)
        | none => some (.value .undef, reg)
    | w => some (.value w, reg)
termination_by (fuel, 0)

/-- Element-wise encoding of an array (`value.map(el => valueToMeta(...))`),
threading the registry left to right. -/
def encodeListF (fuel : Nat) (h : Heap) (opt : Bool) (reg : Registry) (vs : List Val) :
    Option (List Meta × Registry) :=
  match vs with
  | [] => some ([], reg)
  | v :: rest =>
      match valueToMetaF fuel h reg v opt with
      | some (m, reg') =>
          match encodeListF fuel h opt reg' rest with
          | some (ms, reg'') => some (m :: ms, reg'')
          | none => none
      | none => none
termination_by (fuel, vs.length + 1)

end

mutual

/-- Plain-data view of a server value: primitives, buffers and dates are
themselves, heap arrays flatten element-wise to structural arrays, and
anything else (objects, functions, errors) is not plain data.  This is the
value a client should obtain back after a round trip, with the same fuel
discipline as `valueToMetaF`. -/
def flattenF (fuel : Nat) (h : Heap) (v : Val) : Option Val :=
  match fuel with
  | 0 => none
  | f + 1 =>
    match v with
    | .undef => some .undef
    | .null => some .null
    | .bool b => some (.bool b)
    | .num n => some (.num n)
    | .str s => some (.str s)
    | .buf bs => some (.buf bs)
    | .date ms => some (.date ms)
    | .ref a =>
        match h.lookup a with
        | some (.arr elems) =>
            match flattenListF f h elems with
            | some ws => some (.arr ws)
            | none => none
        | _ => none
    | _ => none
termination_by (fuel, 0)

/-- Element-wise plain-data view of a list of server values. -/
def flattenListF (fuel : Nat) (h : Heap) (vs : List Val) : Option (List Val) :=
  match vs with
  | [] => some []
  | v :: rest =>
      match flattenF fuel h v with
      | some w =>
          match flattenListF fuel h rest with
          | some ws => some (w :: ws)
          | none => none
      | none => none
termination_by (fuel, vs.length + 1)

end

/-- `exceptionToMeta` of rpc-server.js: `message` is `error.message`,
`stack` is `error.stack || error` (the error value itself when the stack
text is empty or the throwable is not an Error), and `cause` is
`valueToMeta(error.cause)`. -/
def exceptionToMetaF (fuel : Nat) (h : Heap) (reg : Registry) (e : Val) :
    Option (Meta × Registry) :=
  match fuel with
  | 0 => none
  | f + 1 =>
    let msg : Val := match e with | .err _ m _ _ _ _ _ => .str m | _ => .undef
    let stk : Val := match e with
      | .err _ _ s _ _ _ _ => if s = "" then e else .str s
      | _ => e
    let cause : Val := match e with | .err _ _ _ _ _ c _ => c.getD .undef | _ => .undef
    match valueToMetaF f h reg cause false with
    | some (cm, reg') => some (.exception msg stk cm, reg')
    | none => none

/-- Next unused heap address. -/
def freshAddr (h : Heap) : Nat :=
  (h.map Prod.fst).foldr (fun a b => max a b) 0 + 1

mutual

/-- The inner `metaToValue` of `unwrapArgs` in rpc-server.js (client→server
argument decoding), threading the server heap for the objects it builds.
The `remote-object` case resolves through the registry with no null check,
so an unknown handle yields undefined; a literal `function` tag throws
`Unsupported type: function`; arrays, plain-object arguments and
function-with-return-value placeholders allocate fresh server objects.
Server-direction tags (`arr`, `obj`) are malformed here and the JS crashes
on their missing fields; tags outside the switch hit the default throw. -/
def argMetaToValue (reg : Registry) (h : Heap) : Meta → Except Val (Val × Heap)
  | .value v => .ok (v, h)
  | .remoteObject id =>
      .ok (((registryGet reg id).map Val.ref).getD .undef, h)
  | .argArr elems =>
      match argListToValue reg h elems with
      | .ok (vs, h') =>
          let a := freshAddr h'
          .ok (.ref a, h' ++ [(a, .arr vs)])
      | .error e => .error e
  | .buffer bs => .ok (.buf (metaToBuffer bs), h)
  | .date ms => .ok (.date ms, h)
  | .objArg cname members =>
      match argPropsToValue reg h members with
      | .ok (ps, h') =>
          let a := freshAddr h'
          .ok (.ref a, h' ++ [(a, .obj cname false ps)])
      | .error e => .error e
  | .fnWithReturn m =>
      match argMetaToValue reg h m with
      | .ok (v, h') =>
          let a := freshAddr h'
          .ok (.ref a, h' ++ [(a, .fn "" none (.ret v))])
      | .error e => .error e
  | .func _ _ _ _ => .error (typeErrorVal "Unsupported type: function")
  | .arr _ => .error (typeErrorVal "Cannot read properties of undefined (reading 'map')")
  | .obj _ _ _ _ => .error (typeErrorVal "Cannot read properties of undefined (reading 'type')")
  | .error _ => .error (typeErrorVal "Unknown type: error")
  | .exception _ _ _ => .error (typeErrorVal "Unknown type: exception")

/-- `unwrapArgs` over a list of argument metas (`args.map(metaToValue)`),
threading the server heap. -/
def argListToValue (reg : Registry) (h : Heap) : List Meta → Except Val (List Val × Heap)
  | [] => .ok ([], h)
  | m :: rest =>
      match argMetaToValue reg h m with
      | .ok (v, h') =>
          match argListToValue reg h' rest with
          | .ok (vs, h'') => .ok (v :: vs, h'')
          | .error e => .error e
      | .error e => .error e

/-- Decoding the member list of a plain-object argument
(`ret[member.name] = metaToValue(member.value)`). -/
def argPropsToValue (reg : Registry) (h : Heap) :
    List (String × Meta) → Except Val (List (String × Val) × Heap)
  | [] => .ok ([], h)
  | (n, m) :: rest =>
      match argMetaToValue reg h m with
      | .ok (v, h') =>
          match argPropsToValue reg h' rest with
          | .ok (ps, h'') => .ok ((n, v) :: ps, h'')
          | .error e => .error e
      | .error e => .error e

end

/-- Property read `target[prop]`.  Reads on undefined and null throw a
TypeError; reads on objects look up the data property; reads on arrays,
functions, shells, primitives, buffers, dates and errors are not modelled
and yield undefined. -/
def jsGet (h : Heap) (target : Val) (prop : String) : Except Val Val :=
  match target with
  | .undef => .error (typeErrorVal ("Cannot read properties of undefined (reading '" ++ prop ++ "')"))
  | .null => .error (typeErrorVal ("Cannot read properties of null (reading '" ++ prop ++ "')"))
  | .ref a =>
      match h.lookup a with
      | some (.obj _ _ props) => .ok ((props.lookup prop).getD .undef)
      | _ => .ok .undef
  | _ => .ok Val.undef

/-- `handleMember` of rpc-server.js: read the member, binding callables to
the receiver.  Function behaviours ignore their receiver, so the bound
function is modelled as the function itself and the read is exactly
`jsGet`. -/
def handleMember (h : Heap) (target : Val) (prop : String) : Except Val Val :=
  jsGet h target prop

/-- Replace or append a property in a property list. -/
def setProp : List (String × Val) → String → Val → List (String × Val)
  | [], n, v => [(n, v)]
  | (m, w) :: rest, n, v =>
      if m = n then (m, v) :: rest else (m, w) :: setProp rest n v

/-- Overwrite a heap entry. -/
def heapSet (h : Heap) (a : Nat) (o : Obj) : Heap :=
  h.map (fun p => if p.1 = a then (a, o) else p)

/-- Property write `target[prop] = v`.  Writes to undefined and null throw
a TypeError; writes to objects update the data property; writes to other
targets are not modelled (silently dropped, as in non-strict mode). -/
def jsSet (h : Heap) (target : Val) (prop : String) (v : Val) : Except Val Heap :=
  match target with
  | .undef => .error (typeErrorVal ("Cannot set properties of undefined (setting '" ++ prop ++ "')"))
  | .null => .error (typeErrorVal ("Cannot set properties of null (setting '" ++ prop ++ "')"))
  | .ref a =>
      match h.lookup a with
      | some (.obj cname simple props) =>
          .ok (heapSet h a (.obj cname simple (setProp props prop v)))
      | _ => .ok h
  | _ => .ok h

/-- The message of the re-wrapped invocation error of `callFunction`. -/
def wrapCallMsg (fname : String) (e : Val) : String :=
  "Could not call remote function '" ++ fname
    ++ "'. Check that the function signature is correct. Underlying error: "
    ++ jsMessageOf e

/-- The re-wrapped invocation error of `callFunction`: a fresh Error whose
message names the invoked function and whose `cause` is the original
thrown value. -/
def wrapCallErr (fname : String) (e : Val) : Val :=
  .err "Error" (wrapCallMsg fname e) (jsStackText "Error" (wrapCallMsg fname e))
    none none (some e) []

/-- `callFunction` of rpc-server.js, synchronous path (functions are not
marked asynchronous in the model).  A throw from inside the invoked
function is caught and re-wrapped by `wrapCallErr`; `func.name` of a live
function is never null, so the `anonymous` fallback is unreachable.
Invoking a non-function fails in the native layer before the try block, so
that failure is modelled as an unwrapped TypeError. -/
def callFunction (h : Heap) (func _caller : Val) (_args : List Val) : Except Val Val :=
  match func with
  | .ref a =>
      match h.lookup a with
      | some (.fn fname _ beh) =>
          match beh with
          | .ret v => .ok v
          | .throwE e => .error (wrapCallErr fname e)
      | _ => .error (typeErrorVal "func.apply is not a function")
  | _ => .error (typeErrorVal "func.apply is not a function")

/-- The `new` invocation of `handleConstructor` in rpc-server.js: constant
behaviours yield their value and a throw propagates unwrapped (there is no
try/catch around construction).  The fresh-`this` semantics of `new` do
not arise for constant behaviours. -/
def constructFunction (h : Heap) (func : Val) (_args : List Val) : Except Val Val :=
  match func with
  | .ref a =>
      match h.lookup a with
      | some (.fn _ _ beh) =>
          match beh with
          | .ret v => .ok v
          | .throwE e => .error e
      | _ => .error (typeErrorVal "Bind must be called on a function")
  | _ => .error (typeErrorVal "Bind must be called on a function")

/-- `handleFunction` of rpc-server.js: decode the argument metas against
the registry, then call. -/
def handleFunctionE (reg : Registry) (h : Heap) (func caller : Val) (args : List Meta) :
    Except Val (Val × Heap) :=
  match argListToValue reg h args with
  | .ok (vs, h') => (callFunction h' func caller vs).map (fun v => (v, h'))
  | .error e => .error e

/-- `handleConstructor` of rpc-server.js: decode the argument metas, then
construct. -/
def handleConstructorE (reg : Registry) (h : Heap) (func : Val) (args : List Meta) :
    Except Val (Val × Heap) :=
  match argListToValue reg h args with
  | .ok (vs, h') => (constructFunction h' func vs).map (fun v => (v, h'))
  | .error e => .error e

/-- Interpreter state: the heap of live server objects, the rolling result
register `ret` (initially undefined), and the optimize flag. -/
structure ExecSt where
  heap : Heap
  ret : Val
  optimize : Bool

/-- Lift a thrown value to a chain-level error, recording the heap at the
point of the throw.  Allocations made by argument decoding before a throw
are unreachable garbage and are not carried into the error. -/
def liftErr (h : Heap) : Except Val α → Except (Val × Heap) α
  | .ok v => .ok v
  | .error e => .error (e, h)

/-- Whether a command sets the optimize flag
(`command.type === 'function_call' || command.type === 'member_call'`,
rpc-server.js line 345). -/
def isCallCmd : Command → Bool
  | .function_call _ _ => true
  | .member_call _ _ => true
  | _ => false

/-- The switch of the ELECTRON_BROWSER_LAZY_REMOTE_COMMIT handler: one
command against the current state.  A command whose type is not recognized
matches no case and falls through, leaving the state untouched. -/
def execSwitch (env : Env) (reg : Registry) (st : ExecSt) : Command → Except (Val × Heap) ExecSt
  | .member_get name =>
      (liftErr st.heap (handleMember st.heap st.ret name)).map (fun v => { st with ret := v })
  | .member_set name value =>
      match argListToValue reg st.heap value with
      | .error e => .error (e, st.heap)
      | .ok (vs, h₁) =>
          match jsSet h₁ st.ret name (vs.headD .undef) with
          | .error e => .error (e, h₁)
          | .ok h₂ => .ok { st with heap := h₂, ret := .null }
  | .member_call name args =>
      match jsGet st.heap st.ret name with
      | .error e => .error (e, st.heap)
      | .ok func =>
          match handleFunctionE reg st.heap func st.ret args with
          | .ok (v, h') => .ok { st with heap := h', ret := v }
          | .error e => .error (e, st.heap)
  | .member_constructor name args =>
      match jsGet st.heap st.ret name with
      | .error e => .error (e, st.heap)
      | .ok ctor =>
          match handleConstructorE reg st.heap ctor args with
          | .ok (v, h') => .ok { st with heap := h', ret := v }
          | .error e => .error (e, st.heap)
  | .remote_object_get id name =>
      match registryGet reg id with
      | none => .error (rpcErrorVal ("Cannot get property '" ++ name
          ++ "' on missing remote object " ++ toString id), st.heap)
      | some a =>
          (liftErr st.heap (handleMember st.heap (.ref a) name)).map (fun v => { st with ret := v })
  | .remote_object_set id name value =>
      match registryGet reg id with
      | none => .error (rpcErrorVal ("Cannot set property '" ++ name
          ++ "' on missing remote object " ++ toString id), st.heap)
      | some a =>
          match argListToValue reg st.heap value with
          | .error e => .error (e, st.heap)
          | .ok (vs, h₁) =>
              match jsSet h₁ (.ref a) name (vs.headD .undef) with
              | .error e => .error (e, h₁)
              | .ok h₂ => .ok { st with heap := h₂, ret := .null }
  | .remote_object_call id name args =>
      match registryGet reg id with
      | none => .error (rpcErrorVal ("Cannot call function '" ++ name
          ++ "' on missing remote object " ++ toString id), st.heap)
      | some a =>
          match jsGet st.heap (.ref a) name with
          | .error e => .error (e, st.heap)
          | .ok func =>
              match handleFunctionE reg st.heap func (.ref a) args with
              | .ok (v, h') => .ok { st with heap := h', ret := v }
              | .error e => .error (e, st.heap)
  | .remote_object_constructor id name args =>
      match registryGet reg id with
      | none => .error (rpcErrorVal ("Cannot call constructor '" ++ name
          ++ "' on missing remote object " ++ toString id), st.heap)
      | some a =>
          match jsGet st.heap (.ref a) name with
          | .error e => .error (e, st.heap)
          | .ok ctor =>
              match handleConstructorE reg st.heap ctor args with
              | .ok (v, h') => .ok { st with heap := h', ret := v }
              | .error e => .error (e, st.heap)
  | .function_call id args =>
      match id with
      | none =>
          match handleFunctionE reg st.heap st.ret env.globalObj args with
          | .ok (v, h') => .ok { st with heap := h', ret := v }
          | .error e => .error (e, st.heap)
      | some i =>
          match registryGet reg i with
          | none => .error (rpcErrorVal ("Cannot call function on missing remote object "
              ++ toString i), st.heap)
          | some a =>
              match handleFunctionE reg st.heap (.ref a) env.globalObj args with
              | .ok (v, h') => .ok { st with heap := h', ret := v }
              | .error e => .error (e, st.heap)
  | .constructor_call id args =>
      match id with
      | none =>
          match handleConstructorE reg st.heap st.ret args with
          | .ok (v, h') => .ok { st with heap := h', ret := v }
          | .error e => .error (e, st.heap)
      | some i =>
          match registryGet reg i with
          | none => .error (rpcErrorVal ("Cannot call constructor on missing remote object "
              ++ toString i), st.heap)
          | some a =>
              match handleConstructorE reg st.heap (.ref a) args with
              | .ok (v, h') => .ok { st with heap := h', ret := v }
              | .error e => .error (e, st.heap)
  | .get_builtin m => .ok { st with ret := env.builtins m }
  | .get_global n => .ok { st with ret := env.globals n }
  | .get_current_window => .ok { st with ret := env.currentWindow }
  | .get_current_web_contents => .ok { st with ret := env.currentWebContents }
  | .require m => .ok { st with ret := env.modules m }
  | .unknown _ => .ok st

/-- One loop iteration of the COMMIT handler: run the switch, then set the
optimize flag according to whether this command was a member call or a
bare function call. -/
def execCmd (env : Env) (reg : Registry) (st : ExecSt) (c : Command) : Except (Val × Heap) ExecSt :=
  (execSwitch env reg st c).map (fun st' => { st' with optimize := isCallCmd c })

/-- The command loop of the COMMIT handler: commands run strictly left to
right; the first throw aborts the loop. -/
def execCmds (env : Env) (reg : Registry) : ExecSt → List Command → Except (Val × Heap) ExecSt
  | st, [] => .ok st
  | st, c :: rest =>
      match execCmd env reg st c with
      | .ok st' => execCmds env reg st' rest
      | .error e => .error e

/-- The ELECTRON_BROWSER_LAZY_REMOTE_COMMIT handler: run the chain from an
undefined result register with the optimize flag down, then either encode
the final register (with the optimize flag as computed by the loop) or,
if anything threw, catch it once here and answer with the exception
descriptor of `exceptionToMeta`. -/
def commitChainF (fuel : Nat) (env : Env) (reg : Registry) (h : Heap) (cmds : List Command) :
    Option (Meta × Registry) :=
  match execCmds env reg { heap := h, ret := .undef, optimize := false } cmds with
  | .ok st => valueToMetaF fuel st.heap reg st.ret st.optimize
  | .error (e, h') => exceptionToMetaF fuel h' reg e

/-- Client-side decoder state: the client heap of shells and proxies, the
per-session `remoteObjectCache` keyed by server handle id, and the next
fresh local address. -/
structure ClientState where
  heap : Heap
  cache : List (Nat × Nat)
  nextAddr : Nat

/-- Initial client state. -/
def emptyClient : ClientState := ⟨[], [], 0⟩

/-- `metaToPlainObject` for an error meta: start from a fresh `new Error()`
and assign the raw members one by one.  The standard slots (`name`,
`message`, `stack`, `code`, `errno`, `cause`) are modelled as the typed
error fields; a non-string payload for a string slot and any other member
land in the extra properties. -/
def assignErrMember (e : Val) (p : String × Val) : Val :=
  match e with
  | .err n m s c en cs ex =>
      match p with
      | ("name", .str v) => .err v m s c en cs ex
      | ("message", .str v) => .err n v s c en cs ex
      | ("stack", .str v) => .err n m v c en cs ex
      | ("code", .str v) => .err n m s (some v) en cs ex
      | ("errno", .num v) => .err n m s c (some v) cs ex
      | ("cause", v) => .err n m s c en (some v) ex
      | (k, v) => .err n m s c en cs (setProp ex k v)
  | _ => e

/-- Decoded error value of an error meta. -/
def metaToPlainError (members : List (String × Val)) : Val :=
  members.foldl assignErrMember (.err "Error" "" (jsStackText "Error" "") none none none [])

mutual

/-- `metaToValue` of lazy-object.js (server→client result materializing).
`value` metas pass their raw payload through; arrays decode element-wise to
structural arrays; an exception meta throws a fresh error carrying the
message and stack text and the decoded cause (the `from` field, read off
the remote process, is environment-dependent and not modelled; client
allocations made while decoding the cause are unobservable after the throw
and are not modelled either).  For `obj`/`func` metas the
`remoteObjectCache` is consulted first; on a miss an `obj` meta allocates
a shell (registering its `atomId` hidden value and finalizer) and caches
it, while a `func` meta returns a fresh LazyObject rooted at
`function_call` with the handle id and — as in the source — is not cached.
Client→server tags are malformed in this direction: the JS falls into the
handle branch with an undefined id and the native cache lookup fails,
modelled as a TypeError. -/
def cMetaToValue : Meta → ClientState → Except Val (Val × ClientState)
  | .value v, cs => .ok (v, cs)
  | .arr ms, cs =>
      match cMetaListToValue ms cs with
      | .ok (vs, cs') => .ok (.arr vs, cs')
      | .error e => .error e
  | .buffer bs, cs => .ok (.buf (metaToBuffer bs), cs)
  | .error members, cs => .ok (metaToPlainError members, cs)
  | .date ms, cs => .ok (.date ms, cs)
  | .exception msg stk cause, cs =>
      match cMetaToValue cause cs with
      | .ok (cv, _) =>
          .error (.err "Error" (jsToString msg ++ "\n" ++ jsToString stk)
            (jsStackText "Error" (jsToString msg ++ "\n" ++ jsToString stk))
            none none (some cv) [])
      | .error e => .error e
  | .obj oname id members proto, cs =>
      match cs.cache.lookup id with
      | some a => .ok (.ref a, cs)
      | none =>
          let a := cs.nextAddr
          .ok (.ref a,
            ⟨cs.heap ++ [(a, .shell id oname members proto)], cs.cache ++ [(id, a)], a + 1⟩)
  | .func _ id _ _, cs =>
      match cs.cache.lookup id with
      | some a => .ok (.ref a, cs)
      | none =>
          let a := cs.nextAddr
          .ok (.ref a,
            ⟨cs.heap ++ [(a, .lazyFn [.function_call (some id) []])], cs.cache, a + 1⟩)
  | .argArr _, _ => .error (typeErrorVal "Cannot read properties of undefined (reading 'id')")
  | .remoteObject _, _ => .error (typeErrorVal "Cannot read properties of undefined (reading 'id')")
  | .fnWithReturn _, _ => .error (typeErrorVal "Cannot read properties of undefined (reading 'id')")
  | .objArg _ _, _ => .error (typeErrorVal "Cannot read properties of undefined (reading 'id')")

/-- Element-wise client decoding (`meta.members.map(metaToValue)`). -/
def cMetaListToValue : List Meta → ClientState → Except Val (List Val × ClientState)
  | [], cs => .ok ([], cs)
  | m :: rest, cs =>
      match cMetaToValue m cs with
      | .ok (v, cs') =>
          match cMetaListToValue rest cs' with
          | .ok (vs, cs'') => .ok (v :: vs, cs'')
          | .error e => .error e
      | .error e => .error e

end

mutual

/-- The inner `valueToMeta` of `wrapArgs` in lazy-object.js (client-side
argument encoding), with a recursion-depth fuel.  The visited set breaks
cycles through arrays and plain-object properties by substituting a null
`value` descriptor at the second visit to an already-visited reference.
Fuel is still needed because a function's hidden return-value marker is
re-encoded with the visited set unchanged, which diverges in the source
when markers form a cycle.  A decoded shell carries the `atomId` hidden
value and encodes as `remote-object`; a function without the marker — and
a LazyObject proxy, which is a marker-less function — throws
`Unsupported type: function`.  Structural arrays (client-decoded results)
have no identity and get no visited entry; an error value is a plain
object here whose enumerable own properties are exactly its extra
assigned properties.  The promise branch is outside the modelled value
space. -/
def wrapValueF (fuel : Nat) (h : Heap) (visited : List Nat) (v : Val) :
    Option (Except Val Meta) :=
  match fuel with
  | 0 => none
  | f + 1 =>
    match v with
    | .ref a =>
        if a ∈ visited then some (.ok (.value .null))
        else
          match h.lookup a with
          | some (.arr elems) =>
              match wrapListF f h (a :: visited) elems with
              | some (.ok ms) => some (.ok (.argArr ms))
              | some (.error e) => some (.error e)
              | none => none
          | some (.shell atomId _ _ _) => some (.ok (.remoteObject atomId))
          | some (.obj cname _ props) =>
              match wrapPropsF f h (a :: visited) props with
              | some (.ok ps) => some (.ok (.objArg cname ps))
              | some (.error e) => some (.error e)
              | none => none
          | some (.fn _ (some r) _) =>
              match wrapValueF f h visited r with
              | some (.ok m) => some (.ok (.fnWithReturn m))
              | some (.error e) => some (.error e)
              | none => none
          | some (.fn _ none _) => some (.error (typeErrorVal "Unsupported type: function"))
          | some (.lazyFn _) => some (.error (typeErrorVal "Unsupported type: function"))
          | none => some (.error (typeErrorVal "dangling reference"))
    | .arr elems =>
        match wrapListF f h visited elems with
        | some (.ok ms) => some (.ok (.argArr ms))
        | some (.error e) => some (.error e)
        | none => none
    | .buf bs => some (.ok (.buffer (bufferToMeta bs)))
    | .date ms => some (.ok (.date ms))
    | .err _ _ _ _ _ _ ex =>
        match wrapPropsF f h visited ex with
        | some (.ok ps) => some (.ok (.objArg "Error" ps))
        | some (.error e) => some (.error e)
        | none => none
    | w => some (.ok (.value w))
termination_by (fuel, 0)

/-- Element-wise client argument encoding, sharing the visited set. -/
def wrapListF (fuel : Nat) (h : Heap) (visited : List Nat) (vs : List Val) :
    Option (Except Val (List Meta)) :=
  match vs with
  | [] => some (.ok [])
  | v :: rest =>
      match wrapValueF fuel h visited v with
      | some (.ok m) =>
          match wrapListF fuel h visited rest with
          | some (.ok ms) => some (.ok (m :: ms))
          | some (.error e) => some (.error e)
          | none => none
      | some (.error e) => some (.error e)
      | none => none
termination_by (fuel, vs.length + 1)

/-- Encoding the enumerable properties of a plain-object argument
(`meta.members.push({name, value: valueToMeta(value[prop])})`). -/
def wrapPropsF (fuel : Nat) (h : Heap) (visited : List Nat) (ps : List (String × Val)) :
    Option (Except Val (List (String × Meta))) :=
  match ps with
  | [] => some (.ok [])
  | (n, v) :: rest =>
      match wrapValueF fuel h visited v with
      | some (.ok m) =>
          match wrapPropsF fuel h visited rest with
          | some (.ok ms) => some (.ok ((n, m) :: ms))
          | some (.error e) => some (.error e)
          | none => none
      | some (.error e) => some (.error e)
      | none => none
termination_by (fuel, ps.length + 1)

end

/-- `wrapArgs` of lazy-object.js: encode an argument list against a fresh
visited set. -/
def wrapArgsF (fuel : Nat) (h : Heap) (args : List Val) : Option (Except Val (List Meta)) :=
  wrapListF fuel h [] args

/-- Result of the proxy `get` trap: the sentinel `$` property commits the
chain; any other property appends a `member_get` step and keeps chaining. -/
inductive GetResult where
  | commitSignal
  | chained (commands : List Command)

/-- The `get` trap of the LazyObject proxy. -/
def getTrap (commands : List Command) (prop : String) : GetResult :=
  if prop = "$" then .commitSignal
  else .chained (commands ++ [.member_get prop])

/-- The `set` trap of the LazyObject proxy: encode the value and append a
`member_set` step (the source then commits immediately). -/
def setTrap (fuel : Nat) (h : Heap) (commands : List Command) (prop : String) (v : Val) :
    Option (Except Val (List Command)) :=
  match wrapArgsF fuel h [v] with
  | some (.ok margs) => some (.ok (commands ++ [.member_set prop margs]))
  | some (.error e) => some (.error e)
  | none => none

/-- Whether the apply trap upgrades this trailing step in place. -/
def isGetStep : Command → Bool
  | .member_get _ => true
  | .remote_object_get _ _ => true
  | _ => false

/-- The `apply` trap of the LazyObject proxy (lazy-object.js lines
213-225): read the last pending step, encode the arguments, then either
upgrade a trailing `member_get`/`remote_object_get` in place to the
corresponding call step carrying the encoded arguments, or append a
standalone `function_call` step.  The command list of a LazyObject is
never empty; on an empty list the JS would crash reading `last.type`
(after `wrapArgs` ran), modelled as a TypeError. -/
def applyTrap (fuel : Nat) (h : Heap) (commands : List Command) (args : List Val) :
    Option (Except Val (List Command)) :=
  match wrapArgsF fuel h args with
  | none => none
  | some (.error e) => some (.error e)
  | some (.ok margs) =>
      match commands.getLast? with
      | some (.member_get name) =>
          some (.ok (commands.dropLast ++ [.member_call name margs]))
      | some (.remote_object_get id name) =>
          some (.ok (commands.dropLast ++ [.remote_object_call id name margs]))
      | none => some (.error (typeErrorVal "Cannot read properties of undefined (reading 'type')"))
      | some _ => some (.ok (commands ++ [.function_call none margs]))

/-- The `construct` trap of the LazyObject proxy (lazy-object.js lines
227-243): upgrade a trailing `function_call` (keeping its id),
`member_get` or `remote_object_get` in place, otherwise append a
standalone `constructor_call` step. -/
def constructTrap (fuel : Nat) (h : Heap) (commands : List Command) (args : List Val) :
    Option (Except Val (List Command)) :=
  match wrapArgsF fuel h args with
  | none => none
  | some (.error e) => some (.error e)
  | some (.ok margs) =>
      match commands.getLast? with
      | some (.function_call id _) =>
          some (.ok (commands.dropLast ++ [.constructor_call id margs]))
      | some (.member_get name) =>
          some (.ok (commands.dropLast ++ [.member_constructor name margs]))
      | some (.remote_object_get id name) =>
          some (.ok (commands.dropLast ++ [.remote_object_constructor id name margs]))
      | none => some (.error (typeErrorVal "Cannot read properties of undefined (reading 'type')"))
      | some _ => some (.ok (commands ++ [.constructor_call none margs]))

/-- A host environment with inert collaborators, for concrete runs. -/
def trivEnv : Env :=
  ⟨fun _ => .undef, fun _ => .num 7, .undef, .undef, fun _ => .undef, .undef⟩

theorem execCmds_append (env : Env) (reg : Registry) (pre rest : List Command) :
    ∀ st, execCmds env reg st (pre ++ rest)
      = match execCmds env reg st pre with
        | .ok st' => execCmds env reg st' rest
        | .error e => .error e := by
  induction pre with
  | nil => intro st; simp [execCmds]
  | cons c pre ih =>
      intro st
      simp only [List.cons_append, execCmds]
      cases execCmd env reg st c with
      | ok st' => exact ih st'
      | error e => rfl

theorem execCmd_optimize (env : Env) (reg : Registry) (st : ExecSt) (c : Command)
    (st' : ExecSt) (hok : execCmd env reg st c = .ok st') :
    st'.optimize = isCallCmd c := by
  unfold execCmd at hok
  cases hsw : execSwitch env reg st c with
  | ok st'' => rw [hsw] at hok; cases hok; rfl
  | error e => rw [hsw] at hok; cases hok

theorem execCmds_optimize (env : Env) (reg : Registry) (cmds : List Command) :
    ∀ st st', execCmds env reg st cmds = .ok st' →
      st'.optimize = (cmds.getLast?.map isCallCmd).getD st.optimize := by
  induction cmds with
  | nil => intro st st' hok; cases hok; simp
  | cons c rest ih =>
      intro st st' hok
      simp only [execCmds] at hok
      cases hc : execCmd env reg st c with
      | error e => rw [hc] at hok; cases hok
      | ok st₁ =>
          rw [hc] at hok
          have h₁ := ih st₁ st' hok
          have h₂ := execCmd_optimize env reg st c st₁ hc
          cases rest with
          | nil =>
              simp only [execCmds] at hok
              cases hok
              simp [h₂]
          | cons d ds =>
              have hne : (d :: ds).getLast? ≠ none := by
                simp [List.getLast?_eq_none_iff]
              obtain ⟨x, hx⟩ := Option.ne_none_iff_exists'.mp hne
              rw [List.getLast?_cons_cons, hx]
              rw [hx] at h₁
              simpa using h₁

/-- C1: invoking the proxy as a function inspects the last pending step: a
trailing `member_get` (resp. `remote_object_get`) is upgraded in place to
`member_call` (resp. `remote_object_call`) carrying the encoded
arguments, keeping the list length unchanged; any other trailing shape
appends a standalone `function_call` step instead, so the whole
dotted-and-called expression travels as one Command Chain. -/
theorem C1_apply_trap_chain_compaction (fuel : Nat) (h : Heap) (cmds : List Command)
    (args : List Val) (margs : List Meta)
    (hw : wrapArgsF fuel h args = some (.ok margs)) :
    (∀ name,
        applyTrap fuel h (cmds ++ [.member_get name]) args
          = some (.ok (cmds ++ [.member_call name margs]))
        ∧ (cmds ++ [Command.member_call name margs]).length
            = (cmds ++ [Command.member_get name]).length)
    ∧ (∀ id name,
        applyTrap fuel h (cmds ++ [.remote_object_get id name]) args
          = some (.ok (cmds ++ [.remote_object_call id name margs]))
        ∧ (cmds ++ [Command.remote_object_call id name margs]).length
            = (cmds ++ [Command.remote_object_get id name]).length)
    ∧ (∀ c, isGetStep c = false →
        applyTrap fuel h (cmds ++ [c]) args
          = some (.ok ((cmds ++ [c]) ++ [.function_call none margs]))) := by
  refine ⟨fun name => ⟨?_, by simp⟩, fun id name => ⟨?_, by simp⟩, fun c hc => ?_⟩
  · simp [applyTrap, hw, List.getLast?_concat, List.dropLast_concat]
  · simp [applyTrap, hw, List.getLast?_concat, List.dropLast_concat]
  · cases c <;> simp_all [applyTrap, isGetStep, List.getLast?_concat]

/-- Witness for C1 at concrete inputs. -/
theorem C1_apply_trap_chain_compaction_witness :
    wrapArgsF 1 [] [] = some (.ok [])
    ∧ applyTrap 1 [] [.get_global "a", .member_get "b"] []
        = some (.ok [.get_global "a", .member_call "b" []]) := by
  have hw : wrapArgsF 1 [] ([] : List Val) = some (.ok []) := by
    simp [wrapArgsF, wrapListF]
  exact ⟨hw, ((C1_apply_trap_chain_compaction 1 [] [.get_global "a"] [] [] hw).1 "b").1⟩

/-- C10: a command whose type is not recognized raises no error and changes
no state: the result register and heap are untouched, the optimize flag is
reset to false, execution continues with the next command, and a chain of
such a command still answers with a normal value response. -/
theorem C10_unknown_command_is_noop (env : Env) (reg : Registry) (st : ExecSt)
    (ty : String) (rest : List Command) :
    execCmd env reg st (.unknown ty) = .ok { st with optimize := false }
    ∧ execCmds env reg st (.unknown ty :: rest)
        = execCmds env reg { st with optimize := false } rest
    ∧ (∀ fuel h, commitChainF (fuel + 1) env reg h [.unknown ty]
        = some (.value .undef, reg)) := by
  refine ⟨rfl, ?_, fun fuel h => ?_⟩
  · simp [execCmds, execCmd, execSwitch, isCallCmd, Except.map]
  · simp [commitChainF, execCmds, execCmd, execSwitch, isCallCmd, Except.map, valueToMetaF]

theorem lookup_append_single {β : Type} (l : List (Nat × β)) (k : Nat) (b : β)
    (hnone : l.lookup k = none) : (l ++ [(k, b)]).lookup k = some b := by
  induction l with
  | nil => simp [List.lookup]
  | cons p rest ih =>
      obtain ⟨a, c⟩ := p
      cases hka : (k == a) with
      | true => simp [List.lookup, hka] at hnone
      | false =>
          simp only [List.lookup, hka, List.cons_append] at hnone ⊢
          exact ih hnone

/-- C2 counterexample: decoding the same `function`-tagged descriptor twice
within one client session yields two distinct local proxies — the function
branch of `metaToValue` returns a fresh LazyObject without caching it, so
the results are not reference-equal. -/
theorem C2_function_decode_not_cached_counterexample :
    ∃ v₁ s₁ v₂ s₂,
      cMetaToValue (.func "f" 1 [] none) emptyClient = .ok (v₁, s₁)
      ∧ cMetaToValue (.func "f" 1 [] none) s₁ = .ok (v₂, s₂)
      ∧ v₁ ≠ v₂ := by
  refine ⟨.ref 0, ⟨[(0, .lazyFn [.function_call (some 1) []])], [], 1⟩, .ref 1,
    ⟨[(0, .lazyFn [.function_call (some 1) []]), (1, .lazyFn [.function_call (some 1) []])], [], 2⟩,
    ?_, ?_, ?_⟩
  · simp [cMetaToValue, emptyClient, List.lookup]
  · simp [cMetaToValue, List.lookup]
  · intro hContra
    exact absurd (Val.ref.inj hContra) (by decide)

/-- C2 amended: within one client session, decoding an `object`-tagged
descriptor twice yields the same (reference-equal) local proxy through the
`remoteObjectCache`; a `function`-tagged descriptor whose handle id is not
already cached is never cached, so decoding it twice yields two distinct
fresh LazyObject proxies. -/
theorem C2_object_decode_cached_function_not (cs : ClientState) (id : Nat) :
    (∀ oname members proto v₁ s₁ v₂ s₂,
        cMetaToValue (.obj oname id members proto) cs = .ok (v₁, s₁) →
        cMetaToValue (.obj oname id members proto) s₁ = .ok (v₂, s₂) →
        v₁ = v₂)
    ∧ (cs.cache.lookup id = none →
      ∀ fname members proto v₁ s₁ v₂ s₂,
        cMetaToValue (.func fname id members proto) cs = .ok (v₁, s₁) →
        cMetaToValue (.func fname id members proto) s₁ = .ok (v₂, s₂) →
        v₁ ≠ v₂) := by
  constructor
  · intro oname members proto v₁ s₁ v₂ s₂ h₁ h₂
    cases hc : cs.cache.lookup id with
    | some a =>
        simp [cMetaToValue, hc] at h₁
        obtain ⟨hv₁, hs₁⟩ := h₁
        subst hs₁
        simp [cMetaToValue, hc] at h₂
        obtain ⟨hv₂, _⟩ := h₂
        rw [← hv₁, ← hv₂]
    | none =>
        simp [cMetaToValue, hc] at h₁
        obtain ⟨hv₁, hs₁⟩ := h₁
        subst hs₁
        have hc₂ : (cs.cache ++ [(id, cs.nextAddr)]).lookup id = some cs.nextAddr :=
          lookup_append_single _ _ _ hc
        simp [cMetaToValue, hc₂] at h₂
        obtain ⟨hv₂, _⟩ := h₂
        rw [← hv₁, ← hv₂]
  · intro hnone fname members proto v₁ s₁ v₂ s₂ h₁ h₂
    simp [cMetaToValue, hnone] at h₁
    obtain ⟨hv₁, hs₁⟩ := h₁
    subst hs₁
    simp [cMetaToValue, hnone] at h₂
    obtain ⟨hv₂, _⟩ := h₂
    rw [← hv₁, ← hv₂]
    intro hContra
    have := Val.ref.inj hContra
    omega

/-- Witness for the amended C2 at concrete inputs. -/
theorem C2_object_decode_cached_function_not_witness :
    ∃ v₁ s₁ v₂ s₂ w₁ t₁ w₂ t₂,
      cMetaToValue (.obj "O" 1 [] none) emptyClient = .ok (v₁, s₁)
      ∧ cMetaToValue (.obj "O" 1 [] none) s₁ = .ok (v₂, s₂)
      ∧ v₁ = v₂
      ∧ cMetaToValue (.func "f" 2 [] none) emptyClient = .ok (w₁, t₁)
      ∧ cMetaToValue (.func "f" 2 [] none) t₁ = .ok (w₂, t₂)
      ∧ w₁ ≠ w₂ := by
  have hobj₁ : cMetaToValue (.obj "O" 1 [] none) emptyClient
      = .ok (.ref 0, ⟨[(0, .shell 1 "O" [] none)], [(1, 0)], 1⟩) := by
    simp [cMetaToValue, emptyClient, List.lookup]
  have hobj₂ : cMetaToValue (.obj "O" 1 [] none)
        (⟨[(0, .shell 1 "O" [] none)], [(1, 0)], 1⟩ : ClientState)
      = .ok (.ref 0, ⟨[(0, .shell 1 "O" [] none)], [(1, 0)], 1⟩) := by
    simp [cMetaToValue, List.lookup]
  have hfn₁ : cMetaToValue (.func "f" 2 [] none) emptyClient
      = .ok (.ref 0, ⟨[(0, .lazyFn [.function_call (some 2) []])], [], 1⟩) := by
    simp [cMetaToValue, emptyClient, List.lookup]
  have hfn₂ : cMetaToValue (.func "f" 2 [] none)
        (⟨[(0, .lazyFn [.function_call (some 2) []])], [], 1⟩ : ClientState)
      = .ok (.ref 1, ⟨[(0, .lazyFn [.function_call (some 2) []]),
          (1, .lazyFn [.function_call (some 2) []])], [], 2⟩) := by
    simp [cMetaToValue, List.lookup]
  exact ⟨_, _, _, _, _, _, _, _, hobj₁, hobj₂,
    (C2_object_decode_cached_function_not emptyClient 1).1 "O" [] none _ _ _ _ hobj₁ hobj₂,
    hfn₁, hfn₂,
    (C2_object_decode_cached_function_not emptyClient 2).2
      (by simp [emptyClient, List.lookup]) "f" [] none _ _ _ _ hfn₁ hfn₂⟩

/-- C8: after a chain executes to completion, the optimize flag — and with
it the scalar-encoding eligibility of the final result — is true exactly
when the last command was a member call or a bare function call; every
other last-command shape (and the empty chain) encodes the full reference
form. -/
theorem C8_optimize_iff_last_call (env : Env) (reg : Registry) (h : Heap)
    (cmds : List Command) (st : ExecSt)
    (hrun : execCmds env reg { heap := h, ret := .undef, optimize := false } cmds = .ok st) :
    st.optimize = (cmds.getLast?.map isCallCmd).getD false
    ∧ (∀ fuel, commitChainF fuel env reg h cmds
        = valueToMetaF fuel st.heap reg st.ret ((cmds.getLast?.map isCallCmd).getD false)) := by
  have hopt := execCmds_optimize env reg cmds _ _ hrun
  have hopt' : st.optimize = (cmds.getLast?.map isCallCmd).getD false := by simpa using hopt
  refine ⟨hopt', fun fuel => ?_⟩
  simp only [commitChainF, hrun]
  rw [hopt']

/-- Witness for C8 at concrete inputs: a chain ending in a non-call step
runs to completion with the optimize flag down. -/
theorem C8_optimize_iff_last_call_witness :
    execCmds trivEnv emptyReg ⟨[], .undef, false⟩ [.get_global "x"] = .ok ⟨[], .num 7, false⟩
    ∧ (⟨[], .num 7, false⟩ : ExecSt).optimize
        = (([Command.get_global "x"].getLast?.map isCallCmd).getD false) := by
  have hrun : execCmds trivEnv emptyReg ⟨[], .undef, false⟩ [.get_global "x"]
      = .ok ⟨[], .num 7, false⟩ := by
    simp [execCmds, execCmd, execSwitch, isCallCmd, trivEnv, Except.map]
  exact ⟨hrun, (C8_optimize_iff_last_call trivEnv emptyReg [] [.get_global "x"] _ hrun).1⟩

theorem jsStackText_ne_empty (n m : String) : jsStackText n m ≠ "" := by
  intro hcontra
  simp only [jsStackText] at hcontra
  have hlen := congrArg String.length hcontra
  simp only [String.length_append] at hlen
  have h2 : (": ").length = 2 := rfl
  have h0 : ("" : String).length = 0 := rfl
  omega

/-- C3: each `remote_object_*` command whose handle id does not resolve
raises an EBADRPC error whose message names the attempted operation's
property name and the handle id; the chain stops at the failing command
and the whole response is the exception descriptor built from that error,
carrying its message, its stack text and an undefined cause. -/
theorem C3_missing_remote_object_error (env : Env) (reg : Registry) (st : ExecSt)
    (id : Nat) (name : String) (vmeta args : List Meta)
    (hmiss : registryGet reg id = none) :
    (execCmd env reg st (.remote_object_get id name)
        = .error (rpcErrorVal ("Cannot get property '" ++ name
            ++ "' on missing remote object " ++ toString id), st.heap))
    ∧ (execCmd env reg st (.remote_object_set id name vmeta)
        = .error (rpcErrorVal ("Cannot set property '" ++ name
            ++ "' on missing remote object " ++ toString id), st.heap))
    ∧ (execCmd env reg st (.remote_object_call id name args)
        = .error (rpcErrorVal ("Cannot call function '" ++ name
            ++ "' on missing remote object " ++ toString id), st.heap))
    ∧ (execCmd env reg st (.remote_object_constructor id name args)
        = .error (rpcErrorVal ("Cannot call constructor '" ++ name
            ++ "' on missing remote object " ++ toString id), st.heap))
    ∧ (∀ m, rpcErrorVal m
        = .err "Error" m (jsStackText "Error" m) (some "EBADRPC") (some (-72)) none [])
    ∧ (∀ h₀ pre c post e st',
        execCmds env reg { heap := h₀, ret := .undef, optimize := false } pre = .ok st' →
        execCmd env reg st' c = .error (e, st'.heap) →
        ∀ fuel, commitChainF fuel env reg h₀ (pre ++ c :: post)
          = exceptionToMetaF fuel st'.heap reg e)
    ∧ (∀ fuel h₁ m, exceptionToMetaF (fuel + 2) h₁ reg (rpcErrorVal m)
        = some (.exception (.str m) (.str (jsStackText "Error" m)) (.value .undef), reg)) := by
  refine ⟨?_, ?_, ?_, ?_, fun m => rfl, ?_, ?_⟩
  · simp [execCmd, execSwitch, hmiss, Except.map]
  · simp [execCmd, execSwitch, hmiss, Except.map]
  · simp [execCmd, execSwitch, hmiss, Except.map]
  · simp [execCmd, execSwitch, hmiss, Except.map]
  · intro h₀ pre c post e st' hpre hc fuel
    have hall : execCmds env reg { heap := h₀, ret := .undef, optimize := false }
        (pre ++ c :: post) = .error (e, st'.heap) := by
      rw [execCmds_append, hpre]
      simp [execCmds, hc]
    simp only [commitChainF, hall]
  · intro fuel h₁ m
    simp [exceptionToMetaF, rpcErrorVal, jsStackText_ne_empty, valueToMetaF]

/-- Witness for C3 at concrete inputs: a `remote_object_set` against the
never-issued handle 3 fails with the EBADRPC error naming the property and
the handle id, and the commit of that one-command chain answers with the
corresponding exception descriptor. -/
theorem C3_missing_remote_object_error_witness :
    registryGet emptyReg 3 = none
    ∧ execCmd trivEnv emptyReg ⟨[], .undef, false⟩ (.remote_object_set 3 "hide" [])
        = .error (rpcErrorVal ("Cannot set property '" ++ "hide"
            ++ "' on missing remote object " ++ toString 3), [])
    ∧ commitChainF 2 trivEnv emptyReg [] [.remote_object_set 3 "hide" []]
        = some (.exception (.str ("Cannot set property '" ++ "hide"
              ++ "' on missing remote object " ++ toString 3))
            (.str (jsStackText "Error" ("Cannot set property '" ++ "hide"
              ++ "' on missing remote object " ++ toString 3)))
            (.value .undef), emptyReg) := by
  have hmiss : registryGet emptyReg 3 = none := rfl
  have hthm := C3_missing_remote_object_error trivEnv emptyReg ⟨[], .undef, false⟩ 3 "hide" [] [] hmiss
  have hset := hthm.2.1
  refine ⟨hmiss, hset, ?_⟩
  have hchain := hthm.2.2.2.2.2.1 [] [] (.remote_object_set 3 "hide" []) []
    (rpcErrorVal ("Cannot set property '" ++ "hide" ++ "' on missing remote object " ++ toString 3))
    ⟨[], .undef, false⟩ rfl hset 2
  have hexc := hthm.2.2.2.2.2.2 0 []
    ("Cannot set property '" ++ "hide" ++ "' on missing remote object " ++ toString 3)
  rw [List.nil_append] at hchain
  rw [hchain, hexc]

/-- A server heap holding one live function that throws. -/
def demoHeap : Heap :=
  [(0, .fn "boom" none (.throwE (.err "RangeError" "kaboom" "RangeError: kaboom"
      none none none [])))]

/-- C4: any step throwing aborts the chain: appending further commands
changes nothing (no later command executes), the entire response is the
single exception descriptor of the thrown error, that descriptor carries
the error's message, its stack text and the `valueToMeta` encoding of its
cause, and an error thrown inside an invoked function was first re-wrapped
in an error whose message names the invoked function and whose cause is
the original error. -/
theorem C4_exception_caught_once_at_boundary (env : Env) (reg : Registry) (h : Heap)
    (cmds : List Command) (e : Val) (h' : Heap)
    (herr : execCmds env reg { heap := h, ret := .undef, optimize := false } cmds
      = .error (e, h')) :
    (∀ post, execCmds env reg { heap := h, ret := .undef, optimize := false } (cmds ++ post)
        = .error (e, h'))
    ∧ (∀ post fuel, commitChainF fuel env reg h (cmds ++ post) = exceptionToMetaF fuel h' reg e)
    ∧ (∀ fuel nm m s cd en cse ex cm reg',
        e = .err nm m s cd en cse ex → s ≠ "" →
        valueToMetaF fuel h' reg (cse.getD .undef) false = some (cm, reg') →
        exceptionToMetaF (fuel + 1) h' reg e = some (.exception (.str m) (.str s) cm, reg'))
    ∧ (∀ a fname marker eb caller args2,
        h'.lookup a = some (.fn fname marker (.throwE eb)) →
        callFunction h' (.ref a) caller args2
          = .error (.err "Error"
              ("Could not call remote function '" ++ fname
                ++ "'. Check that the function signature is correct. Underlying error: "
                ++ jsMessageOf eb)
              (jsStackText "Error" ("Could not call remote function '" ++ fname
                ++ "'. Check that the function signature is correct. Underlying error: "
                ++ jsMessageOf eb))
              none none (some eb) [])) := by
  have happ : ∀ post, execCmds env reg { heap := h, ret := .undef, optimize := false }
      (cmds ++ post) = .error (e, h') := by
    intro post
    rw [execCmds_append, herr]
  refine ⟨happ, fun post fuel => ?_, ?_, ?_⟩
  · simp only [commitChainF, happ post]
  · intro fuel nm m s cd en cse ex cm reg' he hs hvm
    subst he
    simp [exceptionToMetaF, hs, hvm]
  · intro a fname marker eb caller args2 hfn
    simp [callFunction, hfn, wrapCallErr, wrapCallMsg]

/-- Witness for C4 at concrete inputs: reading a member off the initially
undefined register throws, the appended command never executes, and
calling the throwing function of `demoHeap` yields the re-wrapped error
naming it. -/
theorem C4_exception_caught_once_at_boundary_witness :
    execCmds trivEnv emptyReg ⟨demoHeap, .undef, false⟩ [.member_get "x"]
        = .error (typeErrorVal "Cannot read properties of undefined (reading 'x')", demoHeap)
    ∧ execCmds trivEnv emptyReg ⟨demoHeap, .undef, false⟩ ([.member_get "x"] ++ [.get_global "y"])
        = .error (typeErrorVal "Cannot read properties of undefined (reading 'x')", demoHeap)
    ∧ callFunction demoHeap (.ref 0) .undef []
        = .error (.err "Error"
            ("Could not call remote function '" ++ "boom"
              ++ "'. Check that the function signature is correct. Underlying error: "
              ++ jsMessageOf (.err "RangeError" "kaboom" "RangeError: kaboom" none none none []))
            (jsStackText "Error" ("Could not call remote function '" ++ "boom"
              ++ "'. Check that the function signature is correct. Underlying error: "
              ++ jsMessageOf (.err "RangeError" "kaboom" "RangeError: kaboom" none none none [])))
            none none
            (some (.err "RangeError" "kaboom" "RangeError: kaboom" none none none [])) []) := by
  have herr : execCmds trivEnv emptyReg ⟨demoHeap, .undef, false⟩ [.member_get "x"]
      = .error (typeErrorVal "Cannot read properties of undefined (reading 'x')", demoHeap) := by
    simp [execCmds, execCmd, execSwitch, handleMember, jsGet, liftErr, Except.map]
  have hthm := C4_exception_caught_once_at_boundary trivEnv emptyReg demoHeap [.member_get "x"]
    (typeErrorVal "Cannot read properties of undefined (reading 'x')") demoHeap herr
  exact ⟨herr, hthm.1 [.get_global "y"],
    hthm.2.2.2 0 "boom" none (.err "RangeError" "kaboom" "RangeError: kaboom" none none none [])
      .undef [] (by simp [demoHeap, List.lookup])⟩

/-- C9 counterexample: decoding a `remote-object` argument descriptor
whose handle id was never issued does not fail: `unwrapArgs` returns the
registry's miss result (undefined) with no error raised. -/
theorem C9_unknown_remote_object_counterexample :
    argMetaToValue emptyReg [] (.remoteObject 5) = .ok (.undef, [])
    ∧ ¬ ∃ e, argMetaToValue emptyReg [] (.remoteObject 5) = .error e := by
  have h1 : argMetaToValue emptyReg [] (.remoteObject 5) = .ok (.undef, []) := by
    simp [argMetaToValue, registryGet, emptyReg, List.lookup]
  refine ⟨h1, ?_⟩
  rintro ⟨e, he⟩
  rw [h1] at he
  cases he

/-- C9 amended: decoding a client→server `remote-object` descriptor whose
handle id does not resolve in the Handle Registry raises no error: the
argument silently decodes to the registry's not-found result (undefined).
Only the `remote_object_*` commands of the interpreter check for a missing
handle; `unwrapArgs` does not. -/
theorem C9_unknown_remote_object_yields_undefined (reg : Registry) (h : Heap) (id : Nat)
    (hmiss : registryGet reg id = none) :
    argMetaToValue reg h (.remoteObject id) = .ok (.undef, h) := by
  simp [argMetaToValue, hmiss]

/-- Witness for the amended C9 at concrete inputs. -/
theorem C9_unknown_remote_object_yields_undefined_witness :
    registryGet emptyReg 5 = none
    ∧ argMetaToValue emptyReg [(0, .arr [])] (.remoteObject 5) = .ok (.undef, [(0, .arr [])]) := by
  exact ⟨rfl, C9_unknown_remote_object_yields_undefined emptyReg [(0, .arr [])] 5 rfl⟩

/-- A heap holding the self-referential array `a = [a]` at address 0. -/
def cycHeap : Heap := [(0, .arr [.ref 0])]

theorem valueToMetaF_cyc_none :
    ∀ fuel reg opt, valueToMetaF fuel cycHeap reg (.ref 0) opt = none := by
  intro fuel
  induction fuel with
  | zero => intro reg opt; simp [valueToMetaF]
  | succ f ih =>
      intro reg opt
      have ih' : ∀ r o, valueToMetaF f [(0, Obj.arr [Val.ref 0])] r (Val.ref 0) o = none := by
        simpa [cycHeap] using ih
      simp [valueToMetaF, cycHeap, List.lookup, encodeListF, ih']

/-- C6 counterexample: the server-side result encoder has no cycle
detection: encoding the self-referential array exhausts every recursion
bound (the source recursion diverges), so no descriptor with a null
placeholder at the cyclic edge is ever produced on the server side. -/
theorem C6_server_cycle_counterexample :
    ¬ ∃ fuel m reg', valueToMetaF fuel cycHeap emptyReg (.ref 0) false = some (m, reg') := by
  rintro ⟨fuel, m, reg', hsome⟩
  rw [valueToMetaF_cyc_none fuel emptyReg false] at hsome
  cases hsome

/-- C6 amended: the client-side argument encoder substitutes a null
`value` descriptor at the second visit to an already-visited reference,
and encoding the self-referential array terminates with the null
placeholder at the cyclic edge; the server-side result encoder has no
cycle detection and diverges on the same value (no recursion bound
suffices). -/
theorem C6_cycle_broken_client_diverges_server (h : Heap) (visited : List Nat) (a fuel : Nat)
    (hmem : a ∈ visited) :
    wrapValueF (fuel + 1) h visited (.ref a) = some (.ok (.value .null))
    ∧ wrapValueF 2 cycHeap [] (.ref 0) = some (.ok (.argArr [.value .null]))
    ∧ (∀ f reg opt, valueToMetaF f cycHeap reg (.ref 0) opt = none) := by
  refine ⟨?_, ?_, valueToMetaF_cyc_none⟩
  · simp [wrapValueF, hmem]
  · simp [wrapValueF, wrapListF, cycHeap, List.lookup]

/-- Witness for the amended C6 at concrete inputs. -/
theorem C6_cycle_broken_client_diverges_server_witness :
    (0 : Nat) ∈ [0]
    ∧ wrapValueF 1 [] [0] (.ref 0) = some (.ok (.value .null)) := by
  exact ⟨by simp, (C6_cycle_broken_client_diverges_server [] [0] 0 0 (by simp)).1⟩

theorem wrapListF_elem_error (fuel : Nat) (h : Heap) (visited : List Nat) (e : Val) :
    ∀ pre post v pms, wrapListF fuel h visited pre = some (.ok pms) →
      wrapValueF fuel h visited v = some (.error e) →
      wrapListF fuel h visited (pre ++ v :: post) = some (.error e) := by
  intro pre
  induction pre with
  | nil =>
      intro post v pms _ hv
      simp [wrapListF, hv]
  | cons w rest ih =>
      intro post v pms hpre hv
      simp only [wrapListF] at hpre
      cases hw : wrapValueF fuel h visited w with
      | none => rw [hw] at hpre; cases hpre
      | some r =>
          cases r with
          | error e' => rw [hw] at hpre; simp at hpre
          | ok m =>
              rw [hw] at hpre
              cases hrest : wrapListF fuel h visited rest with
              | none => rw [hrest] at hpre; simp at hpre
              | some r2 =>
                  cases r2 with
                  | error e2 => rw [hrest] at hpre; simp at hpre
                  | ok ms =>
                      simp only [List.cons_append, wrapListF, hw]
                      rw [ih post v ms hrest hv]

theorem argListToValue_elem_error (reg : Registry) (e : Val) :
    ∀ pre h post m vs h', argListToValue reg h pre = .ok (vs, h') →
      argMetaToValue reg h' m = .error e →
      argListToValue reg h (pre ++ m :: post) = .error e := by
  intro pre
  induction pre with
  | nil =>
      intro h post m vs h' hpre hm
      cases hpre
      simp [argListToValue, hm]
  | cons w rest ih =>
      intro h post m vs h' hpre hm
      simp only [argListToValue] at hpre
      cases hw : argMetaToValue reg h w with
      | error e' => rw [hw] at hpre; cases hpre
      | ok p =>
          obtain ⟨v₀, h₀⟩ := p
          rw [hw] at hpre
          simp only [] at hpre
          cases hrest : argListToValue reg h₀ rest with
          | error e2 => rw [hrest] at hpre; cases hpre
          | ok p2 =>
              obtain ⟨vs₀, h₁⟩ := p2
              rw [hrest] at hpre
              simp only [Except.ok.injEq, Prod.mk.injEq] at hpre
              obtain ⟨_, hh⟩ := hpre
              subst hh
              simp only [List.cons_append, argListToValue, hw]
              have hres := ih h₀ post m vs₀ h₁ hrest hm
              simp only [List.append_eq]
              rw [hres]

/-- C7: a live callable without the precomputed-return-value marker is
rejected on both sides with `TypeError: Unsupported type: function` — by
the client argument encoder when the argument is a marker-less function
(a LazyObject proxy included, being itself a marker-less function), and
by the server argument decoder on a literal `function`-tagged descriptor —
and the rejection is the whole argument list's result: nothing is
partially encoded and nothing is silently dropped. -/
theorem C7_live_callable_rejected (fuel : Nat) (h hs : Heap) (reg : Registry)
    (visited : List Nat) (a : Nat) (fname : String) (beh : FnBehavior)
    (hfn : h.lookup a = some (.fn fname none beh)) (hnv : a ∉ visited) :
    wrapValueF (fuel + 1) h visited (.ref a)
        = some (.error (typeErrorVal "Unsupported type: function"))
    ∧ (∀ gn gid gm gp, argMetaToValue reg hs (.func gn gid gm gp)
        = .error (typeErrorVal "Unsupported type: function"))
    ∧ (∀ pre post pms, wrapListF (fuel + 1) h visited pre = some (.ok pms) →
        wrapListF (fuel + 1) h visited (pre ++ .ref a :: post)
          = some (.error (typeErrorVal "Unsupported type: function")))
    ∧ (∀ pre post vs hs' gn gid gm gp, argListToValue reg hs pre = .ok (vs, hs') →
        argListToValue reg hs (pre ++ .func gn gid gm gp :: post)
          = .error (typeErrorVal "Unsupported type: function")) := by
  have h1 : wrapValueF (fuel + 1) h visited (.ref a)
      = some (.error (typeErrorVal "Unsupported type: function")) := by
    simp [wrapValueF, hnv, hfn]
  have h2 : ∀ gn gid gm gp, argMetaToValue reg hs (.func gn gid gm gp)
      = .error (typeErrorVal "Unsupported type: function") := by
    intro gn gid gm gp
    simp [argMetaToValue]
  refine ⟨h1, h2, ?_, ?_⟩
  · intro pre post pms hpre
    exact wrapListF_elem_error (fuel + 1) h visited _ pre post _ pms hpre h1
  · intro pre post vs hs' gn gid gm gp hpre
    exact argListToValue_elem_error reg _ pre hs post _ vs hs' hpre (h2 gn gid gm gp)

/-- Witness for C7 at concrete inputs. -/
theorem C7_live_callable_rejected_witness :
    ([(0, Obj.fn "g" none (.ret .undef))] : Heap).lookup 0 = some (.fn "g" none (.ret .undef))
    ∧ wrapValueF 1 [(0, .fn "g" none (.ret .undef))] [] (.ref 0)
        = some (.error (typeErrorVal "Unsupported type: function"))
    ∧ argMetaToValue emptyReg [] (.func "f" 9 [] none)
        = .error (typeErrorVal "Unsupported type: function") := by
  have hfn : ([(0, Obj.fn "g" none (.ret .undef))] : Heap).lookup 0
      = some (.fn "g" none (.ret .undef)) := by
    simp [List.lookup]
  have hthm := C7_live_callable_rejected 0 [(0, .fn "g" none (.ret .undef))] [] emptyReg []
    0 "g" (.ret .undef) hfn (by simp)
  exact ⟨hfn, hthm.1, hthm.2.1 "f" 9 [] none⟩

theorem flatten_round_trip (h : Heap) :
    ∀ fuel,
    (∀ v w reg opt cs, flattenF fuel h v = some w →
      ∃ m, valueToMetaF fuel h reg v opt = some (m, reg) ∧ cMetaToValue m cs = .ok (w, cs))
    ∧ (∀ vs ws reg opt cs, flattenListF fuel h vs = some ws →
      ∃ ms, encodeListF fuel h opt reg vs = some (ms, reg)
        ∧ cMetaListToValue ms cs = .ok (ws, cs)) := by
  intro fuel
  induction fuel with
  | zero =>
      constructor
      · intro v w reg opt cs hf
        simp [flattenF] at hf
      · intro vs ws reg opt cs hf
        cases vs with
        | nil =>
            simp [flattenListF] at hf
            subst hf
            exact ⟨[], by simp [encodeListF], by simp [cMetaListToValue]⟩
        | cons v rest => simp [flattenListF, flattenF] at hf
  | succ f ih =>
      have hval : ∀ v w reg opt cs, flattenF (f + 1) h v = some w →
          ∃ m, valueToMetaF (f + 1) h reg v opt = some (m, reg)
            ∧ cMetaToValue m cs = .ok (w, cs) := by
        intro v w reg opt cs hf
        cases v with
        | undef =>
            have hw : w = .undef := by simp [flattenF] at hf; exact hf.symm
            subst hw
            exact ⟨.value .undef, by simp [valueToMetaF], by simp [cMetaToValue]⟩
        | null =>
            have hw : w = .null := by simp [flattenF] at hf; exact hf.symm
            subst hw
            exact ⟨.value .null, by simp [valueToMetaF], by simp [cMetaToValue]⟩
        | bool b =>
            have hw : w = .bool b := by simp [flattenF] at hf; exact hf.symm
            subst hw
            exact ⟨.value (.bool b), by simp [valueToMetaF], by simp [cMetaToValue]⟩
        | num n =>
            have hw : w = .num n := by simp [flattenF] at hf; exact hf.symm
            subst hw
            exact ⟨.value (.num n), by simp [valueToMetaF], by simp [cMetaToValue]⟩
        | str s =>
            have hw : w = .str s := by simp [flattenF] at hf; exact hf.symm
            subst hw
            exact ⟨.value (.str s), by simp [valueToMetaF], by simp [cMetaToValue]⟩
        | buf bs =>
            have hw : w = .buf bs := by simp [flattenF] at hf; exact hf.symm
            subst hw
            exact ⟨.buffer bs, by simp [valueToMetaF, bufferToMeta],
              by simp [cMetaToValue, metaToBuffer]⟩
        | date ms =>
            have hw : w = .date ms := by simp [flattenF] at hf; exact hf.symm
            subst hw
            exact ⟨.date ms, by simp [valueToMetaF], by simp [cMetaToValue]⟩
        | err n1 m1 s1 c1 e1 cs1 x1 => simp [flattenF] at hf
        | arr elems => simp [flattenF] at hf
        | ref a =>
            cases hl : h.lookup a with
            | none => simp [flattenF, hl] at hf
            | some o =>
                cases o with
                | arr elems =>
                    cases hfl : flattenListF f h elems with
                    | none => simp [flattenF, hl, hfl] at hf
                    | some ws' =>
                        have hw : w = .arr ws' := by
                          have hcopy := hf
                          simp [flattenF, hl, hfl] at hcopy
                          exact hcopy.symm
                        subst hw
                        obtain ⟨ms, hms, hdec⟩ := ih.2 elems ws' reg opt cs hfl
                        refine ⟨.arr ms, ?_, ?_⟩
                        · simp [valueToMetaF, hl, hms]
                        · simp [cMetaToValue, hdec]
                | obj cname simple props => simp [flattenF, hl] at hf
                | fn fname rm beh => simp [flattenF, hl] at hf
                | shell i2 cn mems pr => simp [flattenF, hl] at hf
                | lazyFn cmds2 => simp [flattenF, hl] at hf
      refine ⟨hval, ?_⟩
      intro vs
      induction vs with
      | nil =>
          intro ws reg opt cs hf
          simp [flattenListF] at hf
          subst hf
          exact ⟨[], by simp [encodeListF], by simp [cMetaListToValue]⟩
      | cons v rest ihl =>
          intro ws reg opt cs hf
          cases hfv : flattenF (f + 1) h v with
          | none => simp [flattenListF, hfv] at hf
          | some w₁ =>
              cases hfr : flattenListF (f + 1) h rest with
              | none => simp [flattenListF, hfv, hfr] at hf
              | some ws₁ =>
                  have hw : ws = w₁ :: ws₁ := by
                    have hcopy := hf
                    simp [flattenListF, hfv, hfr] at hcopy
                    exact hcopy.symm
                  subst hw
                  obtain ⟨m₁, hm₁, hd₁⟩ := hval v w₁ reg opt cs hfv
                  obtain ⟨ms₁, hms₁, hds₁⟩ := ihl ws₁ reg opt cs hfr
                  refine ⟨m₁ :: ms₁, ?_, ?_⟩
                  · simp [encodeListF, hm₁, hms₁]
                  · simp [cMetaListToValue, hd₁, hds₁]

/-- C5: for every plain-data server value (primitive, acyclic array,
buffer, date), decoding the Meta Descriptor produced by encoding it
yields the corresponding value unchanged: primitives pass through,
arrays element-wise, buffers byte-for-byte, dates with the same epoch
milliseconds; the registry and the client state are untouched. -/
theorem C5_plain_value_round_trip (fuel : Nat) (h : Heap) (v w : Val) (reg : Registry)
    (opt : Bool) (cs : ClientState) (hflat : flattenF fuel h v = some w) :
    ∃ m, valueToMetaF fuel h reg v opt = some (m, reg) ∧ cMetaToValue m cs = .ok (w, cs) :=
  (flatten_round_trip h fuel).1 v w reg opt cs hflat

/-- Witness for C5 at concrete inputs: a heap array of a number and a
string round-trips to the structural array of the same values. -/
theorem C5_plain_value_round_trip_witness :
    flattenF 2 [(0, .arr [.num 1, .str "x"])] (.ref 0) = some (.arr [.num 1, .str "x"])
    ∧ ∃ m, valueToMetaF 2 [(0, .arr [.num 1, .str "x"])] emptyReg (.ref 0) false
          = some (m, emptyReg)
        ∧ cMetaToValue m emptyClient = .ok (.arr [.num 1, .str "x"], emptyClient) := by
  have hflat : flattenF 2 [(0, .arr [.num 1, .str "x"])] (.ref 0)
      = some (.arr [.num 1, .str "x"]) := by
    simp [flattenF, flattenListF, List.lookup]
  exact ⟨hflat, C5_plain_value_round_trip 2 _ _ _ emptyReg false emptyClient hflat⟩
